import Mathlib

/-!
Verification development for a knit-graph library.

The development shallowly embeds the program's core:
  - `Pull_Direction` with its `opposite` operation,
  - the `Knit_Graph` state (nodes, attributed edges, loop mapping, yarn
    mapping, last loop id) with the operations `add_loop`, `add_yarn` and
    `connect_loops`,
  - the course-assignment algorithm `get_courses`,
  - the stitch/cable `Symbol_Table` with its case-insensitive access
    operations and its built-in population (base stitches, decreases, the
    72 generated cables, the `current_row` variable).

Python dictionaries are embedded as association lists in insertion order
(`lookupA` finds the first matching key, `setA` updates in place or appends),
mutation of an object held in a dictionary as a functional update of the
corresponding entry, and an operation that can raise as a function returning
the final state paired with an optional error.  Loop parent stacks hold
parent loop ids; the parent reference in the source is resolved only through
its `loop_id` field, so the id is the faithful observable.
-/

/-- The two pull directions of a loop, `BtF` (knit) and `FtB` (purl). -/
inductive Pull_Direction : Type
  | BtF : Pull_Direction
  | FtB : Pull_Direction
deriving DecidableEq, Repr

/-- The opposite pull direction of `d` (source `Pull_Direction.opposite`). -/
def Pull_Direction.opposite (d : Pull_Direction) : Pull_Direction :=
  if d = Pull_Direction.BtF then Pull_Direction.FtB else Pull_Direction.BtF

/-- A loop record: id, owning yarn id, twisted flag and its parent stack.
The parent stack holds parent loop ids in stacking order. -/
structure Loop : Type where
  loop_id : Nat
  yarn_id : String
  is_twisted : Bool
  parent_loops : List Nat
deriving DecidableEq, Repr

/-- Modelled from the spec: a `Yarn` is a unique string id together with an
ordered sequence of (loop id, twisted-flag) pairs recording the path the
strand takes through loops (the class body is outside the given sources;
only its constructor and `add_loop_to_end` are referenced there). -/
structure Yarn : Type where
  yarn_id : String
  loop_seq : List (Nat × Bool)
deriving DecidableEq, Repr

/-- The attributes carried by a stitch edge: pull direction, cable crossing
depth and lateral parent offset. -/
structure EdgeAttr : Type where
  pull_direction : Pull_Direction
  depth : Int
  parent_offset : Int
deriving DecidableEq, Repr

/-- A Python exception surfaced by an operation. -/
inductive PyError : Type
  | keyErrorNat : Nat → PyError
  | keyErrorStr : String → PyError
deriving DecidableEq, Repr

/-- First-match lookup in an association list: the embedding of reading a
Python dictionary entry. -/
def lookupA {κ α : Type} [DecidableEq κ] : List (κ × α) → κ → Option α
  | [], _ => none
  | kv :: rest, k => if kv.1 = k then some kv.2 else lookupA rest k

/-- Key update in an association list: replace the value at an existing key
in place, otherwise append; the embedding of Python dictionary assignment. -/
def setA {κ α : Type} [DecidableEq κ] : List (κ × α) → κ → α → List (κ × α)
  | [], k, v => [(k, v)]
  | kv :: rest, k, v => if kv.1 = k then (k, v) :: rest else kv :: setA rest k v

/-- The knit-graph state: the digraph node list and attributed edge map
(`networkx.DiGraph`), the loop-id-to-`Loop` mapping, the highest assigned
loop id and the yarn-id-to-`Yarn` mapping. -/
structure Knit_Graph : Type where
  graphNodes : List Nat
  graphEdges : List ((Nat × Nat) × EdgeAttr)
  loops : List (Nat × Loop)
  last_loop_id : Int
  yarns : List (String × Yarn)
deriving DecidableEq, Repr

/-- `networkx` node insertion: a node is added once; re-adding keeps the
node list unchanged. -/
def addNode (ns : List Nat) (n : Nat) : List Nat :=
  if n ∈ ns then ns else ns ++ [n]

/-- Source `Knit_Graph.add_loop`: registers the loop as a graph node; then,
because the yarn branch tests `yarn_id not in self.yarns.keys()`, it indexes
`self.yarns[yarn_id]` exactly when the yarn id is unregistered, raising
`KeyError` there; otherwise it stores the loop in the loop mapping and
updates `last_loop_id`. -/
def add_loop (g : Knit_Graph) (loop : Loop) : Knit_Graph × Option PyError :=
  let g1 : Knit_Graph := { g with graphNodes := addNode g.graphNodes loop.loop_id }
  if (lookupA g1.yarns loop.yarn_id).isNone then
    (g1, some (PyError.keyErrorStr loop.yarn_id))
  else
    ({ g1 with loops := setA g1.loops loop.loop_id loop,
               last_loop_id := (loop.loop_id : Int) }, none)

/-- Source `Knit_Graph.add_yarn`: registers (or overwrites) the yarn under
its id. -/
def add_yarn (g : Knit_Graph) (yarn : Yarn) : Knit_Graph :=
  { g with yarns := setA g.yarns yarn.yarn_id yarn }

/-- Python `list.insert`: a negative index counts from the end and indices
are clamped into `[0, length]`. -/
def pyInsert {α : Type} (l : List α) (i : Int) (x : α) : List α :=
  let n : Nat := l.length
  let j : Nat := if i < 0 then (i + (n : Int)).toNat else min i.toNat n
  l.take j ++ x :: l.drop j

/-- Source `Knit_Graph.connect_loops`: first `networkx.add_edge` records the
attributed edge (creating missing endpoint nodes); only then are the child
and parent looked up in the loop mapping (`KeyError` when absent), and the
parent's id is inserted into the child's parent stack at `stack_position`
(appended when `stack_position` is `none`). -/
def connect_loops (g : Knit_Graph) (parent_loop_id child_loop_id : Nat)
    (pull_direction : Pull_Direction) (stack_position : Option Int)
    (depth parent_offset : Int) : Knit_Graph × Option PyError :=
  let g1 : Knit_Graph :=
    { g with graphNodes := addNode (addNode g.graphNodes parent_loop_id) child_loop_id,
             graphEdges := setA g.graphEdges (parent_loop_id, child_loop_id)
               { pull_direction := pull_direction, depth := depth,
                 parent_offset := parent_offset } }
  match lookupA g1.loops child_loop_id with
  | none => (g1, some (PyError.keyErrorNat child_loop_id))
  | some child_loop =>
    match lookupA g1.loops parent_loop_id with
    | none => (g1, some (PyError.keyErrorNat parent_loop_id))
    | some parent_loop =>
      let newStack : List Nat :=
        match stack_position with
        | some k => pyInsert child_loop.parent_loops k parent_loop.loop_id
        | none => child_loop.parent_loops ++ [parent_loop.loop_id]
      ({ g1 with loops := setA g1.loops child_loop_id
                   { child_loop with parent_loops := newStack } }, none)

/-- One update of the course-to-loop-list dictionary in `get_courses`: start
a fresh singleton list under a new course key, otherwise append the loop id
to the existing list. -/
def c2lUpdate (c2l : List (Nat × List Nat)) (course loopId : Nat) :
    List (Nat × List Nat) :=
  match lookupA c2l course with
  | none => c2l ++ [(course, [loopId])]
  | some _ => c2l.map (fun kv => if kv.1 = course then (kv.1, kv.2 ++ [loopId]) else kv)

/-- The scan loop of `get_courses`.  The source iterates
`while len(loop_ids_to_course) < len(self.loops)` with `cur_loop_id`
starting at 0 and increasing by one per iteration; starting from an empty
assignment each iteration assigns the fresh key `cur_loop_id`, so the loop
performs exactly `len(self.loops)` iterations, embedded here as fuel.  A
missing id raises `KeyError` (`none`).  A course boundary is emitted exactly
when some parent of the current loop is already assigned the running course
number. -/
def getCoursesAux (loops : List (Nat × Loop)) :
    Nat → Nat → Nat → List (Nat × Nat) → List (Nat × List Nat) →
    Option (List (Nat × Nat) × List (Nat × List Nat))
  | 0, _, _, l2c, c2l => some (l2c, c2l)
  | fuel + 1, cur, cn, l2c, c2l =>
    match lookupA loops cur with
    | none => none
    | some loop =>
      let cn2 : Nat :=
        if loop.parent_loops.any (fun p => lookupA l2c p == some cn) then cn + 1 else cn
      getCoursesAux loops fuel (cur + 1) cn2 (setA l2c cur cn2) (c2lUpdate c2l cn2 cur)

/-- Source `Knit_Graph.get_courses`: returns the loop-id-to-course mapping
and the course-to-ordered-loop-list mapping; two empty mappings when no loop
with id 0 exists. -/
def get_courses (g : Knit_Graph) :
    Option (List (Nat × Nat) × List (Nat × List Nat)) :=
  if (lookupA g.loops 0).isNone then some ([], [])
  else getCoursesAux g.loops g.loops.length 0 0 [] []

/-- The loop of a 4-wide stockinette swatch: loop `4*r + c` has the sole
parent `4*(r-1) + c` for `r > 0`, and row-0 loops have no parents. -/
def stockinetteLoop (i : Nat) : Loop :=
  { loop_id := i, yarn_id := "yarn", is_twisted := false,
    parent_loops := if i < 4 then [] else [i - 4] }

/-- The loop mapping of a 4-wide stockinette swatch of height `H`. -/
def stockinetteLoops (H : Nat) : List (Nat × Loop) :=
  (List.range (4 * H)).map (fun i => (i, stockinetteLoop i))

/-- The single yarn of a 4-wide stockinette swatch of height `H`. -/
def stockinetteYarn (H : Nat) : Yarn :=
  { yarn_id := "yarn", loop_seq := (List.range (4 * H)).map (fun i => (i, false)) }

/-- A 4-wide stockinette swatch of height `H` as a knit graph. -/
def stockinetteGraph (H : Nat) : Knit_Graph :=
  { graphNodes := List.range (4 * H)
  , graphEdges := ((List.range (4 * H)).filter (fun i => 4 ≤ i)).map
      (fun i => ((i - 4, i),
        { pull_direction := Pull_Direction.BtF, depth := 0, parent_offset := 0 }))
  , loops := stockinetteLoops H
  , last_loop_id := (4 * H : Int) - 1
  , yarns := [("yarn", stockinetteYarn H)] }

/-- The running course counter of the stockinette scan as it reaches loop
`i`: 0 for the first loop, afterwards the course of the previous loop. -/
def stCN (i : Nat) : Nat :=
  if i = 0 then 0 else (i - 1) / 4

/-- The loop-to-course assignment of the stockinette scan after the first
`i` loops: loop `j` is on course `j / 4`. -/
def stL2C (i : Nat) : List (Nat × Nat) :=
  (List.range i).map (fun j => (j, j / 4))

/-- The course-to-loop-list mapping of the stockinette scan after the first
`i` loops: every full row so far, plus the open partial row. -/
def stC2L (i : Nat) : List (Nat × List Nat) :=
  ((List.range (i / 4)).map (fun r => (r, List.range' (4 * r) 4))) ++
    (if i % 4 = 0 then [] else [(i / 4, List.range' (4 * (i / 4)) (i % 4))])

/-- Modelled from the spec: `Stitch_Lean` (defined in the absent
`stitch_definitions` module) is the two-valued lean of a cable, Left or
Right, indicating which group crosses in front. -/
inductive Stitch_Lean : Type
  | Left : Stitch_Lean
  | Right : Stitch_Lean
deriving DecidableEq, Repr

/-- Modelled from the spec: a `Stitch_Definition` (class body absent from
the given sources; its constructor is called with these keyword fields) is
a template of pull direction, cabling depth, ordered signed offsets to
parent loops and the produced child-loop count. -/
structure Stitch_Definition : Type where
  pull_direction : Pull_Direction
  cabling_depth : Int
  offset_to_parent_loops : List Int
  child_loops : Nat
deriving DecidableEq, Repr

/-- Modelled from the spec: a `Cable_Definition` (class body absent from the
given sources; its constructor is called with these keyword fields) stores
the left and right crossing group sizes, the per-group pull directions and
the cable lean. -/
structure Cable_Definition : Type where
  left_crossing_loops : Nat
  right_crossing_loops : Nat
  left_crossing_pull_direction : Pull_Direction
  right_crossing_pull_direction : Pull_Direction
  cable_lean : Stitch_Lean
deriving DecidableEq, Repr

/-- A symbol-table value: a stitch definition, a cable definition or an
integer variable. -/
inductive SymbolValue : Type
  | stitch : Stitch_Definition → SymbolValue
  | cable : Cable_Definition → SymbolValue
  | num : Int → SymbolValue
deriving DecidableEq, Repr

/-- Source `Symbol_Table._knit`: pull back to front through the
same-column parent, producing one child loop. -/
def knitDef : Stitch_Definition :=
  { pull_direction := Pull_Direction.BtF, cabling_depth := 0,
    offset_to_parent_loops := [0], child_loops := 1 }

/-- Source `Symbol_Table._purl`: pull front to back through the
same-column parent, producing one child loop. -/
def purlDef : Stitch_Definition :=
  { pull_direction := Pull_Direction.FtB, cabling_depth := 0,
    offset_to_parent_loops := [0], child_loops := 1 }

/-- Source `Symbol_Table._yo`: a new loop with no parents. -/
def yoDef : Stitch_Definition :=
  { pull_direction := Pull_Direction.BtF, cabling_depth := 0,
    offset_to_parent_loops := [], child_loops := 1 }

/-- Source `Symbol_Table._slip`: consume the same-column parent producing no
child loops. -/
def slipDef : Stitch_Definition :=
  { pull_direction := Pull_Direction.BtF, cabling_depth := 0,
    offset_to_parent_loops := [0], child_loops := 0 }

/-- Shorthand for a decrease `Stitch_Definition` with `cabling_depth` 0 and
one child loop, as every entry of `Symbol_Table._decreases` has. -/
def decSt (pd : Pull_Direction) (offsets : List Int) : SymbolValue :=
  SymbolValue.stitch { pull_direction := pd, cabling_depth := 0,
                       offset_to_parent_loops := offsets, child_loops := 1 }

/-- The decrease entries added by `Symbol_Table._decreases`, in source
order. -/
def decreaseEntries : List (String × SymbolValue) :=
  [ ("k2tog", decSt Pull_Direction.BtF [0, -1])
  , ("k3tog", decSt Pull_Direction.BtF [0, -1, -2])
  , ("p2tog", decSt Pull_Direction.FtB [0, -1])
  , ("p3tog", decSt Pull_Direction.FtB [0, -1, -2])
  , ("skpo", decSt Pull_Direction.BtF [0, 1])
  , ("sppo", decSt Pull_Direction.FtB [0, 1])
  , ("s2kpo", decSt Pull_Direction.BtF [0, 1, 2])
  , ("s2ppo", decSt Pull_Direction.FtB [0, 1, 2])
  , ("sk2po", decSt Pull_Direction.BtF [-1, 0, 1])
  , ("sp2po", decSt Pull_Direction.FtB [-1, 0, 1]) ]

/-- The cable name built by `Symbol_Table._cables` for one combination:
side letter, "c", left group size, optional left "p", "|", right group
size, optional right "p". -/
def cableName (side : String) (lnum : Nat) (lp : String) (rnum : Nat)
    (rp : String) : String :=
  side ++ "c" ++ toString lnum ++ lp ++ "|" ++ toString rnum ++ rp

/-- The cable entries generated by `Symbol_Table._cables`: for each cross
side, left group size 1..3, right group size 1..3 and the two per-group
purl choices, a `Cable_Definition` whose per-group pull direction is front
to back exactly for a purled group and whose lean follows the side. -/
def cableEntries : List (String × SymbolValue) :=
  (["l", "r"]).flatMap (fun side =>
    (List.range' 1 3).flatMap (fun lnum =>
      (List.range' 1 3).flatMap (fun rnum =>
        (["p", ""]).flatMap (fun lp =>
          (["p", ""]).map (fun rp =>
            (cableName side lnum lp rnum rp,
             SymbolValue.cable
               { left_crossing_loops := lnum
               , right_crossing_loops := rnum
               , left_crossing_pull_direction :=
                   if lp = "p" then Pull_Direction.FtB else Pull_Direction.BtF
               , right_crossing_pull_direction :=
                   if rp = "p" then Pull_Direction.FtB else Pull_Direction.BtF
               , cable_lean :=
                   if side = "l" then Stitch_Lean.Left else Stitch_Lean.Right }))))))

/-- All symbol-table entries written during `Symbol_Table.__init__`, in
execution order: the four base stitches, the decreases, the cables and the
`current_row` variable. -/
def initEntries : List (String × SymbolValue) :=
  [ ("k", SymbolValue.stitch knitDef), ("p", SymbolValue.stitch purlDef)
  , ("yo", SymbolValue.stitch yoDef), ("slip", SymbolValue.stitch slipDef) ]
  ++ decreaseEntries ++ cableEntries ++ [("current_row", SymbolValue.num 0)]

/-- The built-in symbol table after `Symbol_Table.__init__`, the entries
applied as Python dictionary assignments. -/
def symbolTableInit : List (String × SymbolValue) :=
  initEntries.foldl (fun t kv => setA t kv.1 kv.2) []

/-- Python `str.lower`: lower-case every character of the string. -/
def strLower (s : String) : String :=
  String.mk (s.data.map Char.toLower)

/-- Source `Symbol_Table.__contains__`: membership of the lower-cased
name. -/
def symContains (t : List (String × SymbolValue)) (s : String) : Bool :=
  (lookupA t (strLower s)).isSome

/-- Source `Symbol_Table.__setitem__`: assignment under the lower-cased
name. -/
def symSet (t : List (String × SymbolValue)) (key : String) (v : SymbolValue) :
    List (String × SymbolValue) :=
  setA t (strLower key) v

/-- Source `Symbol_Table.__getitem__`: lookup of the lower-cased name
(`KeyError`, here `none`, when absent). -/
def symGet (t : List (String × SymbolValue)) (s : String) : Option SymbolValue :=
  lookupA t (strLower s)

/-- Test fixture: a yarn with id "y" and an empty loop sequence. -/
def yarnY : Yarn := { yarn_id := "y", loop_seq := [] }

/-- Test fixture: a fresh graph on which only `add_yarn yarnY` has run. -/
def graphYRegistered : Knit_Graph :=
  { graphNodes := [], graphEdges := [], loops := [], last_loop_id := -1,
    yarns := [("y", yarnY)] }

/-- Test fixture: a fresh graph with no yarns registered. -/
def graphEmptyG : Knit_Graph :=
  { graphNodes := [], graphEdges := [], loops := [], last_loop_id := -1, yarns := [] }

/-- Test fixture: loop 0 on yarn "y", untwisted, no parents. -/
def loopZero : Loop :=
  { loop_id := 0, yarn_id := "y", is_twisted := false, parent_loops := [] }

/-- Test fixture: a second loop that reuses id 0 but is twisted. -/
def loopZeroTwisted : Loop :=
  { loop_id := 0, yarn_id := "y", is_twisted := true, parent_loops := [] }

/-- Test fixture: loop 1 on yarn "y", untwisted, no parents. -/
def loopOne : Loop :=
  { loop_id := 1, yarn_id := "y", is_twisted := false, parent_loops := [] }

/-- Test fixture: the state after adding `loopZero` to `graphYRegistered`. -/
def graphAfterLoopZero : Knit_Graph := (add_loop graphYRegistered loopZero).1

/-- Test fixture: a graph holding only loop 0. -/
def graphOneLoop : Knit_Graph :=
  { graphNodes := [0], graphEdges := [], loops := [(0, loopZero)],
    last_loop_id := 0, yarns := [("y", yarnY)] }

/-- Test fixture: a graph holding loops 0 and 1 with empty parent stacks. -/
def graphTwoLoops : Knit_Graph :=
  { graphNodes := [0, 1], graphEdges := [], loops := [(0, loopZero), (1, loopOne)],
    last_loop_id := 1, yarns := [("y", yarnY)] }

/-- Test fixture: connect loop 0 to loop 1 requesting stack position 3 on an
empty parent stack. -/
def c8run1 : Knit_Graph × Option PyError :=
  connect_loops graphTwoLoops 0 1 Pull_Direction.BtF (some 3) 0 0

/-- Test fixture: connect loop 0 to loop 1 a second time, at stack
position 0. -/
def c8run2 : Knit_Graph × Option PyError :=
  connect_loops c8run1.1 0 1 Pull_Direction.BtF (some 0) 0 0

/-- Lookup distributes over list append, preferring the left part. -/
theorem lookupA_append {κ α : Type} [DecidableEq κ] (a b : List (κ × α)) (k : κ) :
    lookupA (a ++ b) k = ((lookupA a k).or (lookupA b k)) := by
  induction a with
  | nil => simp [lookupA]
  | cons kv rest ih =>
    by_cases h : kv.1 = k
    · simp [lookupA, h]
    · simp [lookupA, h, ih]

/-- Updating a key makes it look up to the new value. -/
theorem lookupA_setA_self {κ α : Type} [DecidableEq κ] (m : List (κ × α)) (k : κ)
    (v : α) : lookupA (setA m k v) k = some v := by
  induction m with
  | nil => simp [setA, lookupA]
  | cons kv rest ih =>
    by_cases h : kv.1 = k
    · simp [setA, h, lookupA]
    · simp [setA, h, lookupA, ih]

/-- Updating one key leaves lookups of other keys unchanged. -/
theorem lookupA_setA_ne {κ α : Type} [DecidableEq κ] (m : List (κ × α)) (k k2 : κ)
    (v : α) (h : k2 ≠ k) : lookupA (setA m k v) k2 = lookupA m k2 := by
  induction m with
  | nil =>
    simp only [setA, lookupA]
    rw [if_neg (Ne.symm h)]
  | cons kv rest ih =>
    by_cases hk : kv.1 = k
    · have hne : ¬ kv.1 = k2 := by
        rw [hk]
        exact Ne.symm h
      simp only [setA, if_pos hk, lookupA]
      rw [if_neg (Ne.symm h), if_neg hne]
    · simp only [setA, if_neg hk, lookupA]
      by_cases hk2 : kv.1 = k2
      · rw [if_pos hk2, if_pos hk2]
      · rw [if_neg hk2, if_neg hk2, ih]

/-- Updating an absent key appends the binding at the end. -/
theorem setA_of_not_mem {κ α : Type} [DecidableEq κ] (m : List (κ × α)) (k : κ)
    (v : α) (h : k ∉ m.map Prod.fst) : setA m k v = m ++ [(k, v)] := by
  induction m with
  | nil => simp [setA]
  | cons kv rest ih =>
    simp only [List.map_cons, List.mem_cons] at h
    push_neg at h
    simp [setA, Ne.symm h.1, ih h.2]

/-- A present key looks up to some value. -/
theorem lookupA_isSome_of_mem {κ α : Type} [DecidableEq κ] (m : List (κ × α))
    (k : κ) (h : k ∈ m.map Prod.fst) : (lookupA m k).isSome := by
  induction m with
  | nil => simp at h
  | cons kv rest ih =>
    by_cases hk : kv.1 = k
    · simp [lookupA, hk]
    · simp only [List.map_cons, List.mem_cons] at h
      rcases h with h | h
      · exact absurd h.symm hk
      · simp [lookupA, hk, ih h]

/-- Lookup in the graph of a function over an id range. -/
theorem lookupA_rangeMap {α : Type} (f : Nat → α) (n k : Nat) :
    lookupA ((List.range n).map (fun i => (i, f i))) k =
      if k < n then some (f k) else none := by
  induction n with
  | zero => simp [lookupA]
  | succ n ih =>
    rw [List.range_succ, List.map_append, lookupA_append, ih]
    by_cases h : k < n
    · simp [h, Nat.lt_succ_of_lt h]
    · by_cases h2 : k = n
      · subst h2
        simp [h, lookupA]
      · have : ¬ k < n + 1 := by omega
        simp [h, this, lookupA, h2, Ne.symm h2]

/-- The key list of the graph of a function over an id range. -/
theorem keys_rangeMap {α : Type} (f : Nat → α) (n : Nat) :
    ((List.range n).map (fun i => (i, f i))).map Prod.fst = List.range n := by
  rw [List.map_map]
  exact List.map_id' (List.range n)

/-- A node just added is a member of the node list. -/
theorem mem_addNode (ns : List Nat) (n : Nat) : n ∈ addNode ns n := by
  unfold addNode
  split
  · assumption
  · simp

/-- C9: `Pull_Direction.opposite` is a total involutive complement: it maps
each of the two values to the other one, and applying it twice is the
identity. -/
theorem pull_direction_opposite_involutive :
    Pull_Direction.BtF.opposite = Pull_Direction.FtB ∧
    Pull_Direction.FtB.opposite = Pull_Direction.BtF ∧
    (∀ d : Pull_Direction, d.opposite ≠ d) ∧
    (∀ d : Pull_Direction, d.opposite.opposite = d) := by
  refine ⟨by decide, by decide, fun d => ?_, fun d => ?_⟩ <;> cases d <;> decide

/-- C2 (code bug): on a graph in which loop 0's declared yarn "y" is already
registered with an empty loop sequence, `add_loop` succeeds but leaves every
yarn's loop sequence unchanged, so the loop is appended to no yarn: the
inverted branch condition skips the append exactly when the yarn is
registered. -/
theorem add_loop_registered_yarn_not_appended :
    (add_loop graphYRegistered loopZero).2 = none ∧
    (add_loop graphYRegistered loopZero).1.yarns = [("y", yarnY)] ∧
    yarnY.loop_seq = [] := by
  decide

/-- C3 (code bug): adding a second loop that reuses id 0 is not rejected:
the call returns without error and silently overwrites the loop stored
under id 0. -/
theorem add_loop_duplicate_id_overwrites :
    (add_loop graphAfterLoopZero loopZeroTwisted).2 = none ∧
    lookupA graphAfterLoopZero.loops 0 = some loopZero ∧
    lookupA (add_loop graphAfterLoopZero loopZeroTwisted).1.loops 0 =
      some loopZeroTwisted := by
  decide

/-- C10: the yarn-append branch of `add_loop` runs only when the loop's yarn
id is absent from the yarn registry.  When the yarn id is registered the
call succeeds, leaves every yarn's loop sequence unchanged, and makes the
loop a graph node and a loop-mapping entry with `last_loop_id` updated;
when the yarn id is unregistered the branch indexes the missing yarn id and
raises `KeyError` on it, leaving the yarn and loop mappings unchanged. -/
theorem add_loop_yarn_branch (g : Knit_Graph) (loop : Loop) :
    ((lookupA g.yarns loop.yarn_id).isSome →
      (add_loop g loop).2 = none ∧
      (add_loop g loop).1.yarns = g.yarns ∧
      loop.loop_id ∈ (add_loop g loop).1.graphNodes ∧
      lookupA (add_loop g loop).1.loops loop.loop_id = some loop ∧
      (add_loop g loop).1.last_loop_id = (loop.loop_id : Int)) ∧
    ((lookupA g.yarns loop.yarn_id).isNone →
      (add_loop g loop).2 = some (PyError.keyErrorStr loop.yarn_id) ∧
      (add_loop g loop).1.yarns = g.yarns ∧
      (add_loop g loop).1.loops = g.loops) := by
  constructor
  · intro h
    have hn : (lookupA g.yarns loop.yarn_id).isNone = false := by
      rcases Option.isSome_iff_exists.mp h with ⟨v, hv⟩
      rw [hv]
      rfl
    simp [add_loop, hn, mem_addNode, lookupA_setA_self]
  · intro h
    simp [add_loop, h]

/-- Witness for C10 at concrete inputs: the registered-yarn branch on
`graphYRegistered` and the unregistered-yarn branch on the empty graph. -/
theorem add_loop_yarn_branch_witness :
    ((add_loop graphYRegistered loopZero).2 = none ∧
     (add_loop graphYRegistered loopZero).1.yarns = graphYRegistered.yarns ∧
     loopZero.loop_id ∈ (add_loop graphYRegistered loopZero).1.graphNodes ∧
     lookupA (add_loop graphYRegistered loopZero).1.loops loopZero.loop_id =
       some loopZero ∧
     (add_loop graphYRegistered loopZero).1.last_loop_id = (loopZero.loop_id : Int)) ∧
    ((add_loop graphEmptyG loopZero).2 = some (PyError.keyErrorStr loopZero.yarn_id) ∧
     (add_loop graphEmptyG loopZero).1.yarns = graphEmptyG.yarns ∧
     (add_loop graphEmptyG loopZero).1.loops = graphEmptyG.loops) :=
  ⟨(add_loop_yarn_branch graphYRegistered loopZero).1 (by decide),
   (add_loop_yarn_branch graphEmptyG loopZero).2 (by decide)⟩

/-- C7: symbol-table lookup, containment and assignment are
case-insensitive: after assigning under any capitalization, containment
holds and lookup returns the identical stored value under every other
capitalization; in particular "K" and "k" look up to the identical stored
built-in definition. -/
theorem symbol_table_case_insensitive :
    (∀ (t : List (String × SymbolValue)) (s1 s2 : String) (v : SymbolValue),
      strLower s1 = strLower s2 →
      symContains (symSet t s1 v) s2 = true ∧ symGet (symSet t s1 v) s2 = some v) ∧
    symGet symbolTableInit "K" = symGet symbolTableInit "k" ∧
    symGet symbolTableInit "K" = some (SymbolValue.stitch knitDef) := by
  refine ⟨?_, by decide, by decide⟩
  intro t s1 s2 v h
  unfold symContains symSet symGet
  rw [← h, lookupA_setA_self]
  exact ⟨rfl, rfl⟩

/-- Witness for C7 at a concrete input: assigning under "K" is observable
under "k". -/
theorem symbol_table_case_insensitive_witness :
    symContains (symSet [] "K" (SymbolValue.num 3)) "k" = true ∧
    symGet (symSet [] "K" (SymbolValue.num 3)) "k" = some (SymbolValue.num 3) :=
  symbol_table_case_insensitive.1 [] "K" "k" (SymbolValue.num 3) (by decide)

/-- Counterexample for C4: on a graph holding only loop 0,
`connect_loops 0 1` raises the Unknown-Loop `KeyError`, but the graph state
is not unchanged: the edge has already been recorded in the digraph. -/
theorem connect_loops_unknown_changes_state :
    (connect_loops graphOneLoop 0 1 Pull_Direction.BtF none 0 0).2 =
      some (PyError.keyErrorNat 1) ∧
    ¬ ((connect_loops graphOneLoop 0 1 Pull_Direction.BtF none 0 0).1 =
      graphOneLoop) ∧
    lookupA (connect_loops graphOneLoop 0 1 Pull_Direction.BtF none 0 0).1.graphEdges
      (0, 1) = some { pull_direction := Pull_Direction.BtF, depth := 0,
                      parent_offset := 0 } := by
  decide

/-- C4 as amended: when the parent or child id does not denote an existing
loop, `connect_loops` fails synchronously with a `KeyError` on one of the
two ids and modifies no loop (hence no parent stack) and no yarn, but the
attributed edge has already been recorded in the underlying digraph before
the failure. -/
theorem connect_loops_unknown_loop (g : Knit_Graph) (p c : Nat)
    (d : Pull_Direction) (sp : Option Int) (dep off : Int)
    (h : lookupA g.loops c = none ∨ lookupA g.loops p = none) :
    ((connect_loops g p c d sp dep off).2 = some (PyError.keyErrorNat c) ∨
     (connect_loops g p c d sp dep off).2 = some (PyError.keyErrorNat p)) ∧
    (connect_loops g p c d sp dep off).1.loops = g.loops ∧
    (connect_loops g p c d sp dep off).1.yarns = g.yarns ∧
    lookupA (connect_loops g p c d sp dep off).1.graphEdges (p, c) =
      some { pull_direction := d, depth := dep, parent_offset := off } := by
  cases hc : lookupA g.loops c with
  | none =>
    simp [connect_loops, hc, lookupA_setA_self]
  | some cl =>
    cases hp : lookupA g.loops p with
    | none =>
      simp [connect_loops, hc, hp, lookupA_setA_self]
    | some pl =>
      rcases h with h | h
      · rw [hc] at h
        exact absurd h (by simp)
      · rw [hp] at h
        exact absurd h (by simp)

/-- Witness for C4 at a concrete input: connecting to the missing loop 1 on
a graph holding only loop 0. -/
theorem connect_loops_unknown_loop_witness :
    ((connect_loops graphOneLoop 0 1 Pull_Direction.BtF none 0 0).2 =
       some (PyError.keyErrorNat 1) ∨
     (connect_loops graphOneLoop 0 1 Pull_Direction.BtF none 0 0).2 =
       some (PyError.keyErrorNat 0)) ∧
    (connect_loops graphOneLoop 0 1 Pull_Direction.BtF none 0 0).1.loops =
      graphOneLoop.loops ∧
    (connect_loops graphOneLoop 0 1 Pull_Direction.BtF none 0 0).1.yarns =
      graphOneLoop.yarns ∧
    lookupA (connect_loops graphOneLoop 0 1 Pull_Direction.BtF none 0 0).1.graphEdges
      (0, 1) = some { pull_direction := Pull_Direction.BtF, depth := 0,
                      parent_offset := 0 } :=
  connect_loops_unknown_loop graphOneLoop 0 1 Pull_Direction.BtF none 0 0
    (Or.inl (by decide))

/-- Counterexample for C8: requesting stack position 3 on an empty parent
stack clamps the insert (the parent lands at position 0, not 3), and a
repeated connect of the same pair puts the parent on the stack twice, not
exactly once. -/
theorem connect_loops_stack_position_counterexample :
    (c8run1.2 = none ∧
     lookupA c8run1.1.loops 1 =
       some { loop_id := 1, yarn_id := "y", is_twisted := false,
              parent_loops := [0] } ∧
     ¬ (([0] : List Nat)[3]? = some 0)) ∧
    (c8run2.2 = none ∧
     lookupA c8run2.1.loops 1 =
       some { loop_id := 1, yarn_id := "y", is_twisted := false,
              parent_loops := [0, 0] } ∧
     ¬ (([0, 0] : List Nat).count 0 = 1)) := by
  decide

/-- C8 as amended: when both ids denote existing loops, the stored parent
loop carries its own id, the parent is not already on the child's parent
stack, and the requested stack position `k` is at most the stack length,
then after `connect_loops` with `stack_position = k` the child's parent
stack contains the parent exactly once, at position `k`, and the edge
(parent, child) carries exactly the given pull direction, depth and
offset. -/
theorem connect_loops_stack_position (g : Knit_Graph) (p c : Nat)
    (d : Pull_Direction) (dep off : Int) (k : Nat) (cl pl : Loop)
    (hc : lookupA g.loops c = some cl) (hp : lookupA g.loops p = some pl)
    (hid : pl.loop_id = p) (hmem : p ∉ cl.parent_loops)
    (hk : k ≤ cl.parent_loops.length) :
    (connect_loops g p c d (some (k : Int)) dep off).2 = none ∧
    lookupA (connect_loops g p c d (some (k : Int)) dep off).1.loops c =
      some { cl with parent_loops :=
               cl.parent_loops.take k ++ p :: cl.parent_loops.drop k } ∧
    (cl.parent_loops.take k ++ p :: cl.parent_loops.drop k).count p = 1 ∧
    (cl.parent_loops.take k ++ p :: cl.parent_loops.drop k)[k]? = some p ∧
    lookupA (connect_loops g p c d (some (k : Int)) dep off).1.graphEdges (p, c) =
      some { pull_direction := d, depth := dep, parent_offset := off } := by
  have hins : pyInsert cl.parent_loops (k : Int) pl.loop_id =
      cl.parent_loops.take k ++ p :: cl.parent_loops.drop k := by
    have h1 : ¬ ((k : Int) < 0) := by omega
    have h2 : (k : Int).toNat = k := by omega
    simp only [pyInsert, if_neg h1, h2, Nat.min_eq_left hk, hid]
  have hcount : (cl.parent_loops.take k ++ p :: cl.parent_loops.drop k).count p = 1 := by
    have h0 : cl.parent_loops.count p = 0 := List.count_eq_zero.mpr hmem
    have hsplit : (cl.parent_loops.take k).count p +
        (cl.parent_loops.drop k).count p = 0 := by
      rw [← List.count_append, List.take_append_drop]
      exact h0
    rw [List.count_append, List.count_cons_self]
    omega
  have hget : (cl.parent_loops.take k ++ p :: cl.parent_loops.drop k)[k]? =
      some p := by
    have hlen : (cl.parent_loops.take k).length = k := by
      rw [List.length_take]
      omega
    rw [List.getElem?_append_right (by omega), hlen]
    simp
  refine ⟨?_, ?_, hcount, hget, ?_⟩ <;>
    simp [connect_loops, hc, hp, hins, lookupA_setA_self]

/-- Witness for C8 at a concrete input: connecting loop 0 to loop 1 of
`graphTwoLoops` at stack position 0. -/
theorem connect_loops_stack_position_witness :
    (connect_loops graphTwoLoops 0 1 Pull_Direction.BtF (some ((0 : Nat) : Int)) 0 0).2 =
      none ∧
    lookupA (connect_loops graphTwoLoops 0 1 Pull_Direction.BtF
        (some ((0 : Nat) : Int)) 0 0).1.loops 1 =
      some { loopOne with parent_loops :=
               loopOne.parent_loops.take 0 ++ 0 :: loopOne.parent_loops.drop 0 } ∧
    (loopOne.parent_loops.take 0 ++ 0 :: loopOne.parent_loops.drop 0).count 0 = 1 ∧
    (loopOne.parent_loops.take 0 ++ 0 :: loopOne.parent_loops.drop 0)[0]? =
      some 0 ∧
    lookupA (connect_loops graphTwoLoops 0 1 Pull_Direction.BtF
        (some ((0 : Nat) : Int)) 0 0).1.graphEdges (0, 1) =
      some { pull_direction := Pull_Direction.BtF, depth := 0, parent_offset := 0 } :=
  connect_loops_stack_position graphTwoLoops 0 1 Pull_Direction.BtF 0 0 0
    loopOne loopZero (by decide) (by decide) (by decide) (by decide) (by decide)

/-- C6: the cable generation registers exactly 72 distinct cable names, and
the `Cable_Definition` stored in the built symbol table under each generated
name has the encoded left and right group sizes (each in 1..3), a lean
matching the side letter encoded in the name, and per-group pull direction
front-to-back exactly when that group is purled. -/
theorem cable_generation :
    cableEntries.length = 72 ∧
    (cableEntries.map Prod.fst).Nodup ∧
    (∀ side ∈ (["l", "r"] : List String), ∀ lnum ∈ ([1, 2, 3] : List Nat),
     ∀ rnum ∈ ([1, 2, 3] : List Nat), ∀ lp ∈ (["p", ""] : List String),
     ∀ rp ∈ (["p", ""] : List String),
      lookupA symbolTableInit (cableName side lnum lp rnum rp) =
        some (SymbolValue.cable
          { left_crossing_loops := lnum
          , right_crossing_loops := rnum
          , left_crossing_pull_direction :=
              if lp = "p" then Pull_Direction.FtB else Pull_Direction.BtF
          , right_crossing_pull_direction :=
              if rp = "p" then Pull_Direction.FtB else Pull_Direction.BtF
          , cable_lean :=
              if side = "l" then Stitch_Lean.Left else Stitch_Lean.Right })) := by
  refine ⟨by decide, by decide, by decide⟩

/-- Witness for C6 at a concrete combination: the left-leaning cable with
left group size 1 purled and right group size 2 plain. -/
theorem cable_generation_witness :
    lookupA symbolTableInit (cableName "l" 1 "p" 2 "") =
      some (SymbolValue.cable
        { left_crossing_loops := 1
        , right_crossing_loops := 2
        , left_crossing_pull_direction :=
            if ("p" : String) = "p" then Pull_Direction.FtB else Pull_Direction.BtF
        , right_crossing_pull_direction :=
            if ("" : String) = "p" then Pull_Direction.FtB else Pull_Direction.BtF
        , cable_lean :=
            if ("l" : String) = "l" then Stitch_Lean.Left else Stitch_Lean.Right }) :=
  cable_generation.2.2 "l" (by decide) 1 (by decide) 2 (by decide) "p" (by decide)
    "" (by decide)

/-- When every id in the scanned window is present in the loop mapping, the
course scan succeeds and assigns exactly the ids of that window, in order,
after the already-assigned ones. -/
theorem getCoursesAux_dense (L : List (Nat × Loop)) :
    ∀ (fuel cur cn : Nat) (l2c : List (Nat × Nat)) (c2l : List (Nat × List Nat)),
    (∀ j, j < fuel → (lookupA L (cur + j)).isSome) →
    (∀ k ∈ l2c.map Prod.fst, k < cur) →
    ∃ res, getCoursesAux L fuel cur cn l2c c2l = some res ∧
      res.1.map Prod.fst = l2c.map Prod.fst ++ List.range' cur fuel := by
  intro fuel
  induction fuel with
  | zero =>
    intro cur cn l2c c2l _ _
    exact ⟨(l2c, c2l), rfl, by simp⟩
  | succ n ih =>
    intro cur cn l2c c2l hl hk
    have h0 : (lookupA L cur).isSome := by
      have := hl 0 (Nat.succ_pos n)
      simpa using this
    rcases Option.isSome_iff_exists.mp h0 with ⟨loop, hloop⟩
    have hcur : cur ∉ l2c.map Prod.fst := fun hmem => absurd (hk cur hmem) (lt_irrefl cur)
    have hl2 : ∀ j, j < n → (lookupA L (cur + 1 + j)).isSome := by
      intro j hj
      have := hl (j + 1) (by omega)
      have harith : cur + (j + 1) = cur + 1 + j := by omega
      rwa [harith] at this
    set cn2 : Nat :=
      if loop.parent_loops.any (fun p => lookupA l2c p == some cn) then cn + 1 else cn
      with hcn2
    have hk2 : ∀ k ∈ (setA l2c cur cn2).map Prod.fst, k < cur + 1 := by
      intro k hkmem
      rw [setA_of_not_mem l2c cur cn2 hcur, List.map_append, List.mem_append] at hkmem
      rcases hkmem with hkmem | hkmem
      · exact Nat.lt_succ_of_lt (hk k hkmem)
      · simp at hkmem
        omega
    rcases ih (cur + 1) cn2 (setA l2c cur cn2) (c2lUpdate c2l cn2 cur) hl2 hk2 with
      ⟨res, hres, hkeys⟩
    refine ⟨res, ?_, ?_⟩
    · simp only [getCoursesAux, hloop]
      rw [← hcn2]
      exact hres
    · rw [hkeys, setA_of_not_mem l2c cur cn2 hcur, List.map_append]
      simp [List.range'_succ]

/-- C5: on a graph whose assigned loop ids are exactly 0..n-1 with no gaps
(n the size of the loop mapping), `get_courses` terminates successfully and
assigns a course to every loop: the domain of the returned loop-to-course
mapping is exactly the key set of the graph's loop mapping. -/
theorem get_courses_total_on_dense (g : Knit_Graph)
    (h : ∀ i, i ∈ g.loops.map Prod.fst ↔ i < g.loops.length) :
    ∃ l2c c2l, get_courses g = some (l2c, c2l) ∧
      l2c.map Prod.fst = List.range g.loops.length ∧
      (∀ i, i ∈ l2c.map Prod.fst ↔ i ∈ g.loops.map Prod.fst) := by
  rcases Nat.eq_zero_or_pos g.loops.length with hn | hn
  · have hnil : g.loops = [] := List.length_eq_zero.mp hn
    refine ⟨[], [], ?_, by simp [hn], by simp [hnil]⟩
    simp [get_courses, hnil, lookupA]
  · have h0 : (lookupA g.loops 0).isSome :=
      lookupA_isSome_of_mem g.loops 0 ((h 0).mpr hn)
    have h0n : (lookupA g.loops 0).isNone = false := by
      rcases Option.isSome_iff_exists.mp h0 with ⟨v, hv⟩
      rw [hv]
      rfl
    have hl : ∀ j, j < g.loops.length → (lookupA g.loops (0 + j)).isSome := by
      intro j hj
      have : (0 + j) ∈ g.loops.map Prod.fst := (h (0 + j)).mpr (by omega)
      exact lookupA_isSome_of_mem g.loops (0 + j) this
    rcases getCoursesAux_dense g.loops g.loops.length 0 0 [] [] hl (by simp) with
      ⟨res, hres, hkeys⟩
    refine ⟨res.1, res.2, ?_, ?_, ?_⟩
    · rw [get_courses, if_neg (by rw [h0n]; exact Bool.false_ne_true), hres]
    · rw [hkeys, List.range_eq_range']
      simp
    · intro i
      rw [hkeys]
      simp only [List.map_nil, List.nil_append]
      rw [h i]
      have : i ∈ List.range' 0 g.loops.length ↔ i < g.loops.length := by
        rw [List.mem_range']
        constructor
        · rintro ⟨j, hj, hij⟩
          omega
        · intro hi
          exact ⟨i, by omega⟩
      exact this

/-- Witness for C5 at a concrete input: the two-loop graph with ids 0 and 1
is dense, and the scan covers both loops. -/
theorem get_courses_total_on_dense_witness :
    ∃ l2c c2l, get_courses graphTwoLoops = some (l2c, c2l) ∧
      l2c.map Prod.fst = List.range graphTwoLoops.loops.length ∧
      (∀ i, i ∈ l2c.map Prod.fst ↔ i ∈ graphTwoLoops.loops.map Prod.fst) :=
  get_courses_total_on_dense graphTwoLoops (by
    intro i
    simp [graphTwoLoops, loopZero, loopOne]
    omega)

/-- An explicit listing of a four-element id range. -/
theorem range'_four (s : Nat) : List.range' s 4 = [s, s + 1, s + 2, s + 3] := rfl

/-- The counter value of the stockinette scan after assigning loop `i`. -/
theorem stCN_succ (i : Nat) : stCN (i + 1) = i / 4 := by
  unfold stCN
  rw [if_neg (Nat.succ_ne_zero i)]
  simp

/-- The boundary test of the stockinette scan at loop `i` yields the course
`i / 4`: row 0 loops are parentless, the first loop of every later row sees
its parent on the running course and increments, and the remaining loops of
a row see their parents one course below. -/
theorem stCN_step (i : Nat) :
    (if (stockinetteLoop i).parent_loops.any
          (fun p => lookupA (stL2C i) p == some (stCN i))
     then stCN i + 1 else stCN i) = i / 4 := by
  rcases Nat.lt_or_ge i 4 with h4 | h4
  · have hp : (stockinetteLoop i).parent_loops = [] := by
      simp [stockinetteLoop, h4]
    rw [hp]
    simp only [List.any_nil, Bool.false_eq_true, if_false]
    unfold stCN
    split <;> omega
  · have hp : (stockinetteLoop i).parent_loops = [i - 4] := by
      simp [stockinetteLoop, Nat.not_lt.mpr h4]
    rw [hp]
    simp only [List.any_cons, List.any_nil, Bool.or_false]
    rw [stL2C, lookupA_rangeMap, if_pos (by omega : i - 4 < i)]
    unfold stCN
    rw [if_neg (by omega : ¬ i = 0)]
    by_cases he : (i - 4) / 4 = (i - 1) / 4
    · rw [if_pos (by simpa using he)]
      omega
    · rw [if_neg (by simpa using he)]
      omega

/-- Assigning loop `i` extends the loop-to-course mapping by one row-`i/4`
entry. -/
theorem stL2C_step (i : Nat) : setA (stL2C i) i (i / 4) = stL2C (i + 1) := by
  have hmem : i ∉ (stL2C i).map Prod.fst := by
    rw [stL2C, keys_rangeMap]
    simp
  rw [setA_of_not_mem _ _ _ hmem, stL2C, stL2C, List.range_succ, List.map_append]
  simp

/-- The course-list updater leaves every fully closed earlier row
unchanged. -/
theorem mapUpd_rangeMap (g : Nat → List Nat) (n co x : Nat) (h : n ≤ co) :
    ((List.range n).map (fun j => (j, g j))).map
      (fun kv => if kv.1 = co then (kv.1, kv.2 ++ [x]) else kv) =
    (List.range n).map (fun j => (j, g j)) := by
  rw [List.map_map]
  apply List.map_congr_left
  intro j hj
  have hjn : j < n := List.mem_range.mp hj
  have hne : ¬ (j = co) := by omega
  simp [Function.comp, hne]

/-- Appending loop `i` to the course lists either opens row `i/4` (when `i`
starts a row) or extends the open partial row by `i`. -/
theorem stC2L_step (i : Nat) : c2lUpdate (stC2L i) (i / 4) i = stC2L (i + 1) := by
  by_cases h0 : i % 4 = 0
  · have hc : stC2L i =
        (List.range (i / 4)).map (fun r => (r, List.range' (4 * r) 4)) := by
      rw [stC2L, if_pos h0, List.append_nil]
    have hlook : lookupA ((List.range (i / 4)).map
        (fun r => (r, List.range' (4 * r) 4))) (i / 4) = none := by
      rw [lookupA_rangeMap, if_neg (lt_irrefl _)]
    rw [c2lUpdate, hc, hlook]
    have e1 : (i + 1) / 4 = i / 4 := by omega
    have e2 : (i + 1) % 4 = 1 := by omega
    rw [stC2L, e1, e2, if_neg (by omega : ¬ (1 : Nat) = 0)]
    have e3 : List.range' (4 * (i / 4)) 1 = [4 * (i / 4)] := rfl
    have e4 : 4 * (i / 4) = i := by omega
    rw [e3, e4]
  · have hc : stC2L i =
        (List.range (i / 4)).map (fun r => (r, List.range' (4 * r) 4)) ++
          [(i / 4, List.range' (4 * (i / 4)) (i % 4))] := by
      rw [stC2L, if_neg h0]
    have hlook : lookupA (stC2L i) (i / 4) =
        some (List.range' (4 * (i / 4)) (i % 4)) := by
      rw [hc, lookupA_append, lookupA_rangeMap, if_neg (lt_irrefl _)]
      simp [lookupA]
    rw [c2lUpdate, hlook, hc, List.map_append,
        mapUpd_rangeMap _ _ _ _ (le_refl (i / 4))]
    have hrow : List.range' (4 * (i / 4)) (i % 4) ++ [i] =
        List.range' (4 * (i / 4)) (i % 4 + 1) := by
      rw [List.range'_concat]
      have : 4 * (i / 4) + 1 * (i % 4) = i := by omega
      rw [this]
    by_cases h3 : i % 4 = 3
    · have e1 : (i + 1) / 4 = i / 4 + 1 := by omega
      have e2 : (i + 1) % 4 = 0 := by omega
      rw [stC2L, e1, e2, if_pos rfl, List.append_nil, List.range_succ,
          List.map_append]
      simp only [List.map_cons, List.map_nil, if_pos rfl]
      rw [hrow, h3]
      simp
    · have e1 : (i + 1) / 4 = i / 4 := by omega
      have e2 : (i + 1) % 4 = i % 4 + 1 := by omega
      rw [stC2L, e1, e2, if_neg (by omega : ¬ (i % 4 + 1 = 0))]
      simp only [List.map_cons, List.map_nil, if_pos rfl]
      rw [hrow]
      simp

/-- Invariant run of the course scan over a stockinette swatch: starting at
loop `i` with the states reached after the first `i` loops, the remaining
`k = 4H - i` iterations finish the scan with every loop assigned to its
row. -/
theorem stAux (H : Nat) :
    ∀ k i, i + k = 4 * H →
    getCoursesAux (stockinetteLoops H) k i (stCN i) (stL2C i) (stC2L i) =
      some (stL2C (4 * H), stC2L (4 * H)) := by
  intro k
  induction k with
  | zero =>
    intro i hi
    have he : i = 4 * H := by omega
    subst he
    rfl
  | succ n ih =>
    intro i hi
    have hilt : i < 4 * H := by omega
    have hlook : lookupA (stockinetteLoops H) i = some (stockinetteLoop i) := by
      rw [stockinetteLoops, lookupA_rangeMap, if_pos hilt]
    simp only [getCoursesAux, hlook]
    rw [stCN_step i, stL2C_step i, stC2L_step i, ← stCN_succ i]
    exact ih (i + 1) (by omega)

/-- Once the scan has moved past a key, later iterations never change what
that key looks up to in the loop-to-course mapping. -/
theorem getCoursesAux_preserve (L : List (Nat × Loop)) :
    ∀ (fuel cur cn : Nat) (l2c : List (Nat × Nat)) (c2l : List (Nat × List Nat))
      (res : List (Nat × Nat) × List (Nat × List Nat)) (key : Nat),
    key < cur → getCoursesAux L fuel cur cn l2c c2l = some res →
    lookupA res.1 key = lookupA l2c key := by
  intro fuel
  induction fuel with
  | zero =>
    intro cur cn l2c c2l res key hk hres
    simp only [getCoursesAux] at hres
    injection hres with h
    rw [← h]
  | succ n ih =>
    intro cur cn l2c c2l res key hk hres
    cases hlook : lookupA L cur with
    | none =>
      rw [getCoursesAux, hlook] at hres
      exact absurd hres (by simp)
    | some loop =>
      simp only [getCoursesAux, hlook] at hres
      have hstep := ih (cur + 1) _ _ _ res key (by omega) hres
      rw [hstep, lookupA_setA_ne _ _ _ _ (by omega : key ≠ cur)]

/-- C1: a 4-wide stockinette swatch of height `H` yields exactly `H` courses
of 4 loops each, course `r` being `[4r, 4r+1, 4r+2, 4r+3]` in order, with
loop `i` assigned course `i / 4`; and in general the scan assigns the
current loop the incremented running counter exactly when some parent of
that loop is already assigned the current counter value, and the
unincremented counter otherwise. -/
theorem stockinette_courses :
    (∀ H : Nat, get_courses (stockinetteGraph H) =
        some ((List.range (4 * H)).map (fun i => (i, i / 4)),
              (List.range H).map
                (fun r => (r, [4 * r, 4 * r + 1, 4 * r + 2, 4 * r + 3])))) ∧
    (∀ (L : List (Nat × Loop)) (fuel cur cn : Nat) (l2c : List (Nat × Nat))
       (c2l : List (Nat × List Nat)) (loop : Loop)
       (res : List (Nat × Nat) × List (Nat × List Nat)),
      lookupA L cur = some loop →
      getCoursesAux L (fuel + 1) cur cn l2c c2l = some res →
      lookupA res.1 cur =
        some (if loop.parent_loops.any (fun p => lookupA l2c p == some cn)
              then cn + 1 else cn)) := by
  constructor
  · intro H
    rcases Nat.eq_zero_or_pos H with h | h
    · subst h
      decide
    · have hgl : (stockinetteGraph H).loops = stockinetteLoops H := rfl
      have hlook0 : lookupA (stockinetteLoops H) 0 = some (stockinetteLoop 0) := by
        rw [stockinetteLoops, lookupA_rangeMap, if_pos (by omega)]
      have hlen : (stockinetteLoops H).length = 4 * H := by
        rw [stockinetteLoops]
        simp
      rw [get_courses, hgl, hlook0, hlen]
      simp only [Option.isNone_some, Bool.false_eq_true, if_false]
      have h0 := stAux H (4 * H) 0 (by omega)
      have e1 : stCN 0 = 0 := rfl
      have e2 : stL2C 0 = [] := rfl
      have e3 : stC2L 0 = [] := rfl
      rw [e1, e2, e3] at h0
      rw [h0]
      have hfull : stC2L (4 * H) = (List.range H).map
          (fun r => (r, [4 * r, 4 * r + 1, 4 * r + 2, 4 * r + 3])) := by
        rw [stC2L]
        have m1 : 4 * H % 4 = 0 := by omega
        have m2 : 4 * H / 4 = H := by omega
        rw [if_pos m1, m2, List.append_nil]
        apply List.map_congr_left
        intro r hr
        rw [range'_four]
      rw [hfull]
      rfl
  · intro L fuel cur cn l2c c2l loop res hlook hres
    simp only [getCoursesAux, hlook] at hres
    have hp := getCoursesAux_preserve L fuel (cur + 1) _ _ _ res cur
      (by omega) hres
    rw [hp, lookupA_setA_self]

/-- Witness for C1 at a concrete input: one scan step of the height-1
swatch assigns loop 0 the unincremented counter because no parent is on the
running course. -/
theorem stockinette_courses_witness :
    lookupA (([(0, 0)], [(0, [0])]) :
        List (Nat × Nat) × List (Nat × List Nat)).1 0 =
      some (if (stockinetteLoop 0).parent_loops.any
              (fun p => lookupA ([] : List (Nat × Nat)) p == some 0)
            then 0 + 1 else 0) :=
  stockinette_courses.2 (stockinetteLoops 1) 0 0 0 [] [] (stockinetteLoop 0)
    ([(0, 0)], [(0, [0])]) (by decide) (by decide)
